import Mathlib

/-!
Verification of `dashboard/scripts/rebuild_index.py`.

The script scans a data directory whose immediate subdirectories are
date-named (`YYYY-MM-DD`) and contain benchmark result files
`<commit>-bench.json` together with optional companion files
(`<commit>-jit-bench.json`, `<commit>-regression.json`,
`<commit>-jit-regression.json`, `<commit>-cross-client.json`), and writes
an `index.json` manifest listing one record per primary benchmark file.

The embedding below models:
* Python string comparison (code-point lexicographic) — `charsLe`, `strLe`;
* `str.endswith` / `str.removesuffix` — `endsWithS`, `removesuffix`;
* the directory tree visible to the script — `DirEntry`, an optional list
  of root children (`none` models a nonexistent root);
* `scan_data_dir` — sorted traversal of directory children, the
  `*-bench.json` glob, the `-jit-bench.json` skip, and companion lookup;
* `json.dump(..., indent=2, sort_keys=False)` on the fixed document shape
  `\x7b"runs": [...]\x7d` — `serializeIndex`;
* `write_index` — `os.makedirs(os.path.dirname(p) or ".")`, opening the
  output file, and the `OSError` → `SystemExit` translation, with the
  fallible operations represented by an explicit environment `IOEnv` and
  the written files by a `FileStore`;
* the (unused) `BENCH_PATTERN` regex — `BENCH_PATTERN_match`.
-/

namespace RebuildIndex

/-- Python compares strings by code points, lexicographically; strict
comparison on the underlying character lists. -/
def charsLt : List Char → List Char → Bool
  | [], [] => false
  | [], _ :: _ => true
  | _ :: _, [] => false
  | a :: as, b :: bs =>
    if a.toNat = b.toNat then charsLt as bs else decide (a.toNat < b.toNat)

/-- Python non-strict string comparison on the underlying character lists. -/
def charsLe : List Char → List Char → Bool
  | [], _ => true
  | _ :: _, [] => false
  | a :: as, b :: bs =>
    if a.toNat = b.toNat then charsLe as bs else decide (a.toNat < b.toNat)

/-- Python `a < b` on strings. -/
def strLt (a b : String) : Bool := charsLt a.data b.data

/-- Python `a <= b` on strings. -/
def strLe (a b : String) : Bool := charsLe a.data b.data

/-- Python `s.endswith(suffix)`. -/
def endsWithS (s suffix : String) : Bool := suffix.data.isSuffixOf s.data

/-- Python `s.removesuffix(suffix)`: strip the suffix when present,
otherwise return the string unchanged. -/
def removesuffix (s suffix : String) : String :=
  if endsWithS s suffix then ⟨s.data.take (s.data.length - suffix.data.length)⟩
  else s

/-- One index entry, as built by `scan_data_dir`: the Python dict with
mandatory keys `date`, `commit`, `bench` and the four optional companion
keys, a missing key being `none`. -/
structure RunRecord where
  date : String
  commit : String
  bench : String
  jit_bench : Option String := none
  regression : Option String := none
  jit_regression : Option String := none
  cross_client : Option String := none
deriving DecidableEq

/-- An immediate child of the data directory: its name, whether it is a
directory, and (when it is) the names of its own children. -/
structure DirEntry where
  name : String
  isDir : Bool
  files : List String
deriving DecidableEq

/-- The glob pattern `*-bench.json` used on a date directory: `*` matches
any (possibly empty) sequence of characters within one path component. -/
def globMatchBench (name : String) : Bool := endsWithS name "-bench.json"

/-- The body of the inner loop of `scan_data_dir`: skip companion
`-jit-bench.json` files, otherwise build the record for one primary file,
checking existence of the four companion files among the directory's
children. -/
def scanBenchFile (date_name : String) (files : List String) (name : String) :
    Option RunRecord :=
  if endsWithS name "-jit-bench.json" then none
  else
    let commit := removesuffix name "-bench.json"
    some
      { date := date_name
        commit := commit
        bench := date_name ++ "/" ++ name
        jit_bench :=
          if files.contains (commit ++ "-jit-bench.json") then
            some (date_name ++ "/" ++ commit ++ "-jit-bench.json")
          else none
        regression :=
          if files.contains (commit ++ "-regression.json") then
            some (date_name ++ "/" ++ commit ++ "-regression.json")
          else none
        jit_regression :=
          if files.contains (commit ++ "-jit-regression.json") then
            some (date_name ++ "/" ++ commit ++ "-jit-regression.json")
          else none
        cross_client :=
          if files.contains (commit ++ "-cross-client.json") then
            some (date_name ++ "/" ++ commit ++ "-cross-client.json")
          else none }

/-- Processing of one date directory: `sorted(date_dir.glob("*-bench.json"))`
followed by the per-file loop body. -/
def scanDateDir (d : DirEntry) : List RunRecord :=
  (List.insertionSort (fun a b : String => strLe a b = true)
      (d.files.filter globMatchBench)).filterMap
    (scanBenchFile d.name d.files)

/-- `scan_data_dir`: an absent root yields no entries; otherwise traverse
`sorted(base.iterdir())`, keep only directories, and scan each. -/
def scan_data_dir (root : Option (List DirEntry)) : List RunRecord :=
  match root with
  | none => []
  | some entries =>
    ((List.insertionSort (fun a b : DirEntry => strLe a.name b.name = true)
        entries).filter (fun e => e.isDir)).flatMap scanDateDir

/-- Lowercase hex digit, as used by Python's JSON `\uXXXX` escapes. -/
def hexDigitChar (n : Nat) : Char :=
  if n < 10 then Char.ofNat (48 + n) else Char.ofNat (97 + (n - 10))

/-- Four lowercase hex digits. -/
def hex4 (n : Nat) : String :=
  ⟨[hexDigitChar (n / 4096 % 16), hexDigitChar (n / 256 % 16),
    hexDigitChar (n / 16 % 16), hexDigitChar (n % 16)]⟩

/-- Escaping of one character in a JSON string, as done by `json.dump`
with its default `ensure_ascii=True`: the two-character shorthands, then
`\uXXXX` for other control or non-ASCII characters (surrogate pairs
beyond the basic plane), all other characters unchanged. -/
def jsonEscapeChar (c : Char) : String :=
  if c.toNat = 34 then "\\\""
  else if c.toNat = 92 then "\\\\"
  else if c.toNat = 10 then "\\n"
  else if c.toNat = 13 then "\\r"
  else if c.toNat = 9 then "\\t"
  else if c.toNat = 8 then "\\b"
  else if c.toNat = 12 then "\\f"
  else if c.toNat < 32 ∨ 126 < c.toNat then
    if c.toNat < 65536 then "\\u" ++ hex4 c.toNat
    else
      "\\u" ++ hex4 (55296 + (c.toNat - 65536) / 1024) ++
        "\\u" ++ hex4 (56320 + (c.toNat - 65536) % 1024)
  else ⟨[c]⟩

/-- A JSON string literal for `s`. -/
def jsonQuote (s : String) : String :=
  "\"" ++ String.join (s.data.map jsonEscapeChar) ++ "\""

/-- The key/value pairs of one record's Python dict, in insertion order:
`date`, `commit`, `bench`, then each companion key exactly when the
companion file was found. -/
def recordFields (r : RunRecord) : List (String × String) :=
  [("date", r.date), ("commit", r.commit), ("bench", r.bench)] ++
    (match r.jit_bench with | some p => [("jit_bench", p)] | none => []) ++
    (match r.regression with | some p => [("regression", p)] | none => []) ++
    (match r.jit_regression with
      | some p => [("jit_regression", p)] | none => []) ++
    (match r.cross_client with
      | some p => [("cross_client", p)] | none => [])

/-- The keys present in one record's dict. -/
def recordKeys (r : RunRecord) : List String := (recordFields r).map Prod.fst

/-- `json.dump` with `indent=2` on one record dict: it sits at depth 2 of
the document, so its fields are indented by 6 spaces and its closing
brace by 4. -/
def renderFields (fields : List (String × String)) : String :=
  match fields with
  | [] => "\x7b\x7d"
  | _ =>
    "\x7b\n" ++
      String.intercalate ",\n"
        (fields.map (fun kv => "      " ++ jsonQuote kv.1 ++ ": " ++ jsonQuote kv.2)) ++
      "\n    \x7d"

/-- `json.dump` with `indent=2` on the `runs` array: an empty array is
rendered inline, otherwise one element per line at indentation 4. -/
def renderRuns (records : List (List (String × String))) : String :=
  match records with
  | [] => "[]"
  | _ =>
    "[\n" ++
      String.intercalate ",\n" (records.map (fun f => "    " ++ renderFields f)) ++
      "\n  ]"

/-- `json.dump(\x7b"runs": runs\x7d, f, indent=2, sort_keys=False)`: the
single-field top-level object. -/
def dumpIndex (records : List (List (String × String))) : String :=
  "\x7b\n  \"runs\": " ++ renderRuns records ++ "\n\x7d"

/-- The exact bytes `write_index` writes: the `json.dump` output followed
by the explicit trailing `"\n"`. -/
def serializeIndex (runs : List RunRecord) : String :=
  dumpIndex (runs.map recordFields) ++ "\n"

/-- `os.path.dirname` (POSIX): everything up to the last `/`, with
trailing slashes stripped unless the result is empty or all slashes. -/
def dirname (p : String) : String :=
  let i := p.data.length - (p.data.reverse.takeWhile (fun c => !(c == '/'))).length
  let head := p.data.take i
  if head.isEmpty then ⟨head⟩
  else if head.all (fun c => c == '/') then ⟨head⟩
  else ⟨(head.reverse.dropWhile (fun c => c == '/')).reverse⟩

/-- `os.path.dirname(output_path) or "."`: the empty dirname is falsy in
Python, so it is replaced by the current directory. -/
def dirnameOrDot (p : String) : String :=
  let d := dirname p
  if d = "" then "." else d

/-- The files the script has written, by path. -/
abbrev FileStore := List (String × String)

/-- Writing a file: unconditionally overwrite any existing file at the
path. -/
def fsWrite (fs : FileStore) (path content : String) : FileStore :=
  (path, content) :: fs.filter (fun kv => !(kv.1 == path))

/-- The content currently at a path, if any. -/
def fsGet (fs : FileStore) (path : String) : Option String :=
  (fs.find? (fun kv => kv.1 == path)).map (fun kv => kv.2)

/-- The fallible operating-system calls `write_index` performs: whether
`os.makedirs(d, exist_ok=True)` fails for a given directory, and whether
opening a given path for writing fails; a failure carries the `OSError`
text. -/
structure IOEnv where
  mkdirErr : String → Option String
  openErr : String → Option String

/-- The `SystemExit` raised by `write_index` on an `OSError`: its message
is the interpolated `f"Error writing \x7boutput_path\x7d: \x7be\x7d"` and
its `__cause__` (set by `raise ... from e`) is the underlying error. -/
structure WriteError where
  msg : String
  cause : String
deriving DecidableEq

/-- `write_index`: create the output directory (`dirname or "."`), open
the file, write the serialized index plus a newline; any `OSError` is
rethrown as `SystemExit` carrying the path and the cause. -/
def write_index (runs : List RunRecord) (output_path : String) (env : IOEnv)
    (fs : FileStore) : Except WriteError FileStore :=
  match env.mkdirErr (dirnameOrDot output_path) with
  | some e => .error ⟨"Error writing " ++ output_path ++ ": " ++ e, e⟩
  | none =>
    match env.openErr output_path with
    | some e => .error ⟨"Error writing " ++ output_path ++ ": " ++ e, e⟩
    | none => .ok (fsWrite fs output_path (serializeIndex runs))

/-- Is the character one of `0123456789`? -/
def isDigitChar (c : Char) : Bool := 48 ≤ c.toNat ∧ c.toNat ≤ 57

/-- Is the character in the class `[a-f0-9]`? -/
def isHexLowerChar (c : Char) : Bool :=
  isDigitChar c || (97 ≤ c.toNat ∧ c.toNat ≤ 102)

/-- Does `([a-f0-9]+)-bench\.json$` match the rest of the subject? The
fixed-length literal tail forces a unique split, so this holds exactly
when the part before `-bench.json` is nonempty and all lowercase hex. -/
def matchCommitBench (rest : List Char) : Bool :=
  "-bench.json".data.isSuffixOf rest &&
    decide (rest.take (rest.length - 11) ≠ []) &&
    (rest.take (rest.length - 11)).all isHexLowerChar

/-- Whether `BENCH_PATTERN`, the regex
`^(\d\x7b4\x7d-\d\x7b2\x7d-\d\x7b2\x7d)/([a-f0-9]+)-bench\.json$`
declared (but never applied) by the script, matches a string. -/
def BENCH_PATTERN_match (s : String) : Bool :=
  match s.data with
  | c1 :: c2 :: c3 :: c4 :: h1 :: c5 :: c6 :: h2 :: c7 :: c8 :: sl :: rest =>
    [c1, c2, c3, c4, c5, c6, c7, c8].all isDigitChar &&
      (h1 == '-') && (h2 == '-') && (sl == '/') && matchCommitBench rest
  | _ => false

lemma charToNat_inj {a b : Char} (h : a.toNat = b.toNat) : a = b := by
  unfold Char.toNat at h
  exact Char.ext (UInt32.toNat.inj h)

lemma charsLe_total : ∀ a b : List Char, charsLe a b = true ∨ charsLe b a = true
  | [], _ => Or.inl rfl
  | _ :: _, [] => Or.inr rfl
  | a :: as, b :: bs => by
    by_cases h : a.toNat = b.toNat
    · rcases charsLe_total as bs with ih | ih
      · exact Or.inl (by simp [charsLe, h, ih])
      · exact Or.inr (by simp [charsLe, h.symm, ih])
    · rcases Nat.lt_or_ge a.toNat b.toNat with hl | hg
      · exact Or.inl (by simp [charsLe, h, hl])
      · have h' : ¬b.toNat = a.toNat := fun e => h e.symm
        have hgt : b.toNat < a.toNat := Nat.lt_of_le_of_ne hg h'
        exact Or.inr (by simp [charsLe, h', hgt])

lemma charsLe_trans : ∀ a b c : List Char,
    charsLe a b = true → charsLe b c = true → charsLe a c = true
  | [], _, _ => fun _ _ => rfl
  | _ :: _, [], _ => fun h _ => by simp [charsLe] at h
  | _ :: _, _ :: _, [] => fun _ h => by simp [charsLe] at h
  | a :: as, b :: bs, c :: cs => by
    intro h1 h2
    by_cases hab : a.toNat = b.toNat <;> by_cases hbc : b.toNat = c.toNat
    · rw [charsLe, if_pos hab] at h1
      rw [charsLe, if_pos hbc] at h2
      rw [charsLe, if_pos (hab.trans hbc)]
      exact charsLe_trans as bs cs h1 h2
    · rw [charsLe, if_neg hbc] at h2
      have hlt : b.toNat < c.toNat := of_decide_eq_true h2
      have hac : a.toNat < c.toNat := hab ▸ hlt
      rw [charsLe, if_neg (Nat.ne_of_lt hac), decide_eq_true_eq]
      exact hac
    · rw [charsLe, if_neg hab] at h1
      have hlt : a.toNat < b.toNat := of_decide_eq_true h1
      have hac : a.toNat < c.toNat := hbc ▸ hlt
      rw [charsLe, if_neg (Nat.ne_of_lt hac), decide_eq_true_eq]
      exact hac
    · rw [charsLe, if_neg hab] at h1
      rw [charsLe, if_neg hbc] at h2
      have hac : a.toNat < c.toNat :=
        Nat.lt_trans (of_decide_eq_true h1) (of_decide_eq_true h2)
      rw [charsLe, if_neg (Nat.ne_of_lt hac), decide_eq_true_eq]
      exact hac

lemma charsLe_ne_charsLt : ∀ a b : List Char,
    charsLe a b = true → a ≠ b → charsLt a b = true
  | [], [] => fun _ h => absurd rfl h
  | [], _ :: _ => fun _ _ => rfl
  | _ :: _, [] => fun h _ => by simp [charsLe] at h
  | a :: as, b :: bs => by
    intro h1 hne
    by_cases hab : a.toNat = b.toNat
    · obtain rfl : a = b := charToNat_inj hab
      rw [charsLe, if_pos rfl] at h1
      rw [charsLt, if_pos rfl]
      exact charsLe_ne_charsLt as bs h1 (fun e => hne (by rw [e]))
    · rw [charsLe, if_neg hab] at h1
      rw [charsLt, if_neg hab]
      exact h1

lemma strLe_ne_strLt {a b : String} (h : strLe a b = true) (hne : a ≠ b) :
    strLt a b = true :=
  charsLe_ne_charsLt a.data b.data h (fun e => hne (String.ext e))

instance : IsTotal String (fun a b => strLe a b = true) :=
  ⟨fun a b => charsLe_total a.data b.data⟩

instance : IsTrans String (fun a b => strLe a b = true) :=
  ⟨fun a b c => charsLe_trans a.data b.data c.data⟩

instance : IsTotal DirEntry (fun a b => strLe a.name b.name = true) :=
  ⟨fun a b => charsLe_total a.name.data b.name.data⟩

instance : IsTrans DirEntry (fun a b => strLe a.name b.name = true) :=
  ⟨fun a b c => charsLe_trans a.name.data b.name.data c.name.data⟩

lemma endsWithS_iff {s suf : String} :
    endsWithS s suf = true ↔ suf.data <:+ s.data :=
  List.isSuffixOf_iff_suffix

lemma endsWithS_append (a b : String) : endsWithS (a ++ b) b = true := by
  rw [endsWithS, String.data_append]
  exact List.isSuffixOf_iff_suffix.mpr (List.suffix_append a.data b.data)

lemma append_cancel_left_str {a b c : String} (h : a ++ b = a ++ c) : b = c := by
  apply String.ext
  have h2 := congrArg String.data h
  rw [String.data_append, String.data_append] at h2
  exact List.append_cancel_left h2

lemma append_cancel_right_str {a b c : String} (h : a ++ c = b ++ c) : a = b := by
  apply String.ext
  have h2 := congrArg String.data h
  rw [String.data_append, String.data_append] at h2
  exact List.append_cancel_right h2

lemma removesuffix_reconstruct {s suf : String} (h : endsWithS s suf = true) :
    removesuffix s suf ++ suf = s := by
  obtain ⟨t, ht⟩ := endsWithS_iff.mp h
  apply String.ext
  rw [String.data_append, removesuffix, if_pos h]
  show s.data.take (s.data.length - suf.data.length) ++ suf.data = s.data
  rw [← ht, List.length_append, Nat.add_sub_cancel, List.take_left]

lemma removesuffix_append (a b : String) : removesuffix (a ++ b) b = a :=
  append_cancel_right_str (by rw [removesuffix_reconstruct (endsWithS_append a b)])

lemma scanBenchFile_eq_some {D : String} {files : List String} {n : String}
    (hj : endsWithS n "-jit-bench.json" = false) :
    scanBenchFile D files n = some
      { date := D
        commit := removesuffix n "-bench.json"
        bench := D ++ "/" ++ n
        jit_bench :=
          if files.contains (removesuffix n "-bench.json" ++ "-jit-bench.json") then
            some (D ++ "/" ++ removesuffix n "-bench.json" ++ "-jit-bench.json")
          else none
        regression :=
          if files.contains (removesuffix n "-bench.json" ++ "-regression.json") then
            some (D ++ "/" ++ removesuffix n "-bench.json" ++ "-regression.json")
          else none
        jit_regression :=
          if files.contains (removesuffix n "-bench.json" ++ "-jit-regression.json") then
            some (D ++ "/" ++ removesuffix n "-bench.json" ++ "-jit-regression.json")
          else none
        cross_client :=
          if files.contains (removesuffix n "-bench.json" ++ "-cross-client.json") then
            some (D ++ "/" ++ removesuffix n "-bench.json" ++ "-cross-client.json")
          else none } := by
  rw [scanBenchFile, if_neg (by simp [hj])]

lemma scanBenchFile_inv {D : String} {files : List String} {n : String}
    {r : RunRecord} (h : scanBenchFile D files n = some r) :
    endsWithS n "-jit-bench.json" = false := by
  by_cases hj : endsWithS n "-jit-bench.json" = true
  · rw [scanBenchFile, if_pos (by simp [hj])] at h
    cases h
  · simpa using hj

lemma scanBenchFile_some {D : String} {files : List String} {n : String}
    {r : RunRecord} (h : scanBenchFile D files n = some r) :
    endsWithS n "-jit-bench.json" = false ∧ r.date = D ∧
      r.commit = removesuffix n "-bench.json" ∧ r.bench = D ++ "/" ++ n := by
  have hj : endsWithS n "-jit-bench.json" = false := scanBenchFile_inv h
  rw [scanBenchFile_eq_some hj] at h
  obtain rfl := (Option.some_inj.mp h).symm
  exact ⟨hj, rfl, rfl, rfl⟩

lemma scanBenchFile_explicit {D : String} {files : List String} {n : String}
    {r : RunRecord} (h : scanBenchFile D files n = some r) :
    r = { date := D
          commit := removesuffix n "-bench.json"
          bench := D ++ "/" ++ n
          jit_bench :=
            if files.contains (removesuffix n "-bench.json" ++ "-jit-bench.json") then
              some (D ++ "/" ++ removesuffix n "-bench.json" ++ "-jit-bench.json")
            else none
          regression :=
            if files.contains (removesuffix n "-bench.json" ++ "-regression.json") then
              some (D ++ "/" ++ removesuffix n "-bench.json" ++ "-regression.json")
            else none
          jit_regression :=
            if files.contains (removesuffix n "-bench.json" ++ "-jit-regression.json") then
              some (D ++ "/" ++ removesuffix n "-bench.json" ++ "-jit-regression.json")
            else none
          cross_client :=
            if files.contains (removesuffix n "-bench.json" ++ "-cross-client.json") then
              some (D ++ "/" ++ removesuffix n "-bench.json" ++ "-cross-client.json")
            else none } := by
  have hj : endsWithS n "-jit-bench.json" = false := scanBenchFile_inv h
  rw [scanBenchFile_eq_some hj] at h
  exact (Option.some_inj.mp h).symm

lemma scanDateDir_mem {d : DirEntry} {r : RunRecord} (h : r ∈ scanDateDir d) :
    ∃ n, n ∈ d.files ∧ globMatchBench n = true ∧
      scanBenchFile d.name d.files n = some r := by
  obtain ⟨n, hn, hsome⟩ := List.mem_filterMap.mp h
  have hn2 : n ∈ d.files.filter globMatchBench :=
    (List.perm_insertionSort _ _).mem_iff.mp hn
  exact ⟨n, (List.mem_filter.mp hn2).1, (List.mem_filter.mp hn2).2, hsome⟩

lemma scanDateDir_date {d : DirEntry} {r : RunRecord} (h : r ∈ scanDateDir d) :
    r.date = d.name := by
  obtain ⟨n, -, -, hs⟩ := scanDateDir_mem h
  exact (scanBenchFile_some hs).2.1

lemma mem_scan {entries : List DirEntry} {r : RunRecord}
    (h : r ∈ scan_data_dir (some entries)) :
    ∃ e, e ∈ entries ∧ e.isDir = true ∧ r ∈ scanDateDir e := by
  simp only [scan_data_dir] at h
  obtain ⟨e, he, hr⟩ := List.mem_flatMap.mp h
  have h1 := List.mem_filter.mp he
  exact ⟨e, (List.perm_insertionSort _ _).mem_iff.mp h1.1, by simpa using h1.2, hr⟩

lemma flatMap_single {α β : Type} [DecidableEq α] {l : List α} {d : α}
    {g : α → List β} (hnd : l.Nodup) (hd : d ∈ l)
    (hz : ∀ e ∈ l, e ≠ d → g e = []) : l.flatMap g = g d := by
  induction l with
  | nil => cases hd
  | cons x t ih =>
    rw [List.flatMap_cons]
    rcases List.mem_cons.mp hd with h | h
    · obtain rfl := h.symm
      have ht : ∀ e ∈ t, g e = [] := fun e he =>
        hz e (List.mem_cons_of_mem _ he)
          (fun ed => (List.nodup_cons.mp hnd).1 (ed ▸ he))
      rw [List.flatMap_eq_nil_iff.mpr ht, List.append_nil]
    · have hx : x ≠ d := fun ed => (List.nodup_cons.mp hnd).1 (ed ▸ h)
      rw [hz x (List.mem_cons_self x t) hx, List.nil_append]
      exact ih (List.nodup_cons.mp hnd).2 h
        (fun e he hed => hz e (List.mem_cons_of_mem _ he) hed)

lemma recordKeys_eq (r : RunRecord) :
    recordKeys r = ["date", "commit", "bench"] ++
      (if r.jit_bench.isSome then ["jit_bench"] else []) ++
      (if r.regression.isSome then ["regression"] else []) ++
      (if r.jit_regression.isSome then ["jit_regression"] else []) ++
      (if r.cross_client.isSome then ["cross_client"] else []) := by
  rcases r with ⟨d, c, b, j, g, jg, cc⟩
  cases j <;> cases g <;> cases jg <;> cases cc <;>
    simp [recordKeys, recordFields]

lemma recordKeys_contains_jit_bench (r : RunRecord) :
    (recordKeys r).contains "jit_bench" = r.jit_bench.isSome := by
  rcases r with ⟨d, c, b, j, g, jg, cc⟩
  cases j <;> cases g <;> cases jg <;> cases cc <;>
    simp [recordKeys, recordFields]

lemma recordKeys_contains_regression (r : RunRecord) :
    (recordKeys r).contains "regression" = r.regression.isSome := by
  rcases r with ⟨d, c, b, j, g, jg, cc⟩
  cases j <;> cases g <;> cases jg <;> cases cc <;>
    simp [recordKeys, recordFields]

lemma recordKeys_contains_jit_regression (r : RunRecord) :
    (recordKeys r).contains "jit_regression" = r.jit_regression.isSome := by
  rcases r with ⟨d, c, b, j, g, jg, cc⟩
  cases j <;> cases g <;> cases jg <;> cases cc <;>
    simp [recordKeys, recordFields]

lemma recordKeys_contains_cross_client (r : RunRecord) :
    (recordKeys r).contains "cross_client" = r.cross_client.isSome := by
  rcases r with ⟨d, c, b, j, g, jg, cc⟩
  cases j <;> cases g <;> cases jg <;> cases cc <;>
    simp [recordKeys, recordFields]

lemma fsGet_fsWrite (fs : FileStore) (path content : String) :
    fsGet (fsWrite fs path content) path = some content := by
  rw [fsGet, fsWrite, List.find?_cons_of_pos _ (by simp)]
  rfl

lemma write_ok_inv {runs : List RunRecord} {p : String} {env : IOEnv}
    {fs out : FileStore} (h : write_index runs p env fs = .ok out) :
    out = fsWrite fs p (serializeIndex runs) := by
  rw [write_index] at h
  cases hmk : env.mkdirErr (dirnameOrDot p) with
  | some e => rw [hmk] at h; cases h
  | none =>
    rw [hmk] at h
    cases hop : env.openErr p with
    | some e => rw [hop] at h; cases h
    | none => rw [hop] at h; exact (Except.ok.injEq _ _ ▸ h).symm

lemma filterMap_filter_nil (D : String) (files : List String) (C : String)
    {l : List String} (hnm : (C ++ "-bench.json") ∉ l) :
    (l.filterMap (scanBenchFile D files)).filter
      (fun r => r.date == D && r.bench == D ++ "/" ++ (C ++ "-bench.json")) = [] := by
  apply List.filter_eq_nil_iff.mpr
  intro r hr hp
  obtain ⟨n, hn, hs⟩ := List.mem_filterMap.mp hr
  obtain ⟨-, -, -, hb⟩ := scanBenchFile_some hs
  rw [Bool.and_eq_true, beq_iff_eq, beq_iff_eq] at hp
  have hn2 : n = C ++ "-bench.json" := append_cancel_left_str (hb ▸ hp.2)
  exact hnm (hn2 ▸ hn)

lemma filterMap_filter_single (D : String) (files : List String) (C : String)
    {l : List String} (hnd : l.Nodup) (hmem : (C ++ "-bench.json") ∈ l)
    (hjit : endsWithS (C ++ "-bench.json") "-jit-bench.json" = false) :
    (l.filterMap (scanBenchFile D files)).filter
      (fun r => r.date == D && r.bench == D ++ "/" ++ (C ++ "-bench.json")) =
      [{ date := D
         commit := C
         bench := D ++ "/" ++ (C ++ "-bench.json")
         jit_bench :=
           if files.contains (C ++ "-jit-bench.json") then
             some (D ++ "/" ++ C ++ "-jit-bench.json")
           else none
         regression :=
           if files.contains (C ++ "-regression.json") then
             some (D ++ "/" ++ C ++ "-regression.json")
           else none
         jit_regression :=
           if files.contains (C ++ "-jit-regression.json") then
             some (D ++ "/" ++ C ++ "-jit-regression.json")
           else none
         cross_client :=
           if files.contains (C ++ "-cross-client.json") then
             some (D ++ "/" ++ C ++ "-cross-client.json")
           else none }] := by
  induction l with
  | nil => cases hmem
  | cons n t ih =>
    by_cases hn : n = C ++ "-bench.json"
    · subst hn
      rw [List.filterMap_cons_some (scanBenchFile_eq_some hjit),
        List.filter_cons_of_pos (by simp),
        filterMap_filter_nil D files C (List.nodup_cons.mp hnd).1,
        removesuffix_append]
    · have hmem2 : (C ++ "-bench.json") ∈ t := by
        rcases List.mem_cons.mp hmem with h | h
        · exact absurd h.symm hn
        · exact h
      have htail := ih (List.nodup_cons.mp hnd).2 hmem2
      cases hsf : scanBenchFile D files n with
      | none => rw [List.filterMap_cons_none hsf, htail]
      | some r =>
        rw [List.filterMap_cons_some hsf,
          List.filter_cons_of_neg ?_, htail]
        obtain ⟨-, -, -, hb⟩ := scanBenchFile_some hsf
        intro hp
        rw [Bool.and_eq_true, beq_iff_eq, beq_iff_eq] at hp
        exact hn (append_cancel_left_str (hb ▸ hp.2))

/-- C1: for every date directory `D` containing a primary file named
`C-bench.json`, `scan_data_dir` produces exactly one record for that file,
with `date = D`, `commit = C`, `bench = D/C-bench.json`; each of the four
companion fields holds the derived path precisely when the companion file
exists in the directory at scan time, and the corresponding key is in the
record's dict exactly in that case (absent keys are omitted entirely). -/
theorem scan_primary_record (entries : List DirEntry) (d : DirEntry) (C : String)
    (hnames : (entries.map DirEntry.name).Nodup)
    (hd : d ∈ entries) (hdir : d.isDir = true) (hfiles : d.files.Nodup)
    (hmem : (C ++ "-bench.json") ∈ d.files)
    (hjit : endsWithS (C ++ "-bench.json") "-jit-bench.json" = false) :
    ∃ rec,
      (scan_data_dir (some entries)).filter
          (fun r => r.date == d.name &&
            r.bench == d.name ++ "/" ++ (C ++ "-bench.json")) = [rec] ∧
      rec.date = d.name ∧ rec.commit = C ∧
      rec.bench = d.name ++ "/" ++ (C ++ "-bench.json") ∧
      rec.jit_bench = (if d.files.contains (C ++ "-jit-bench.json") then
        some (d.name ++ "/" ++ C ++ "-jit-bench.json") else none) ∧
      rec.regression = (if d.files.contains (C ++ "-regression.json") then
        some (d.name ++ "/" ++ C ++ "-regression.json") else none) ∧
      rec.jit_regression = (if d.files.contains (C ++ "-jit-regression.json") then
        some (d.name ++ "/" ++ C ++ "-jit-regression.json") else none) ∧
      rec.cross_client = (if d.files.contains (C ++ "-cross-client.json") then
        some (d.name ++ "/" ++ C ++ "-cross-client.json") else none) ∧
      (recordKeys rec).contains "jit_bench" =
        d.files.contains (C ++ "-jit-bench.json") ∧
      (recordKeys rec).contains "regression" =
        d.files.contains (C ++ "-regression.json") ∧
      (recordKeys rec).contains "jit_regression" =
        d.files.contains (C ++ "-jit-regression.json") ∧
      (recordKeys rec).contains "cross_client" =
        d.files.contains (C ++ "-cross-client.json") := by
  refine ⟨{ date := d.name
            commit := C
            bench := d.name ++ "/" ++ (C ++ "-bench.json")
            jit_bench :=
              if d.files.contains (C ++ "-jit-bench.json") then
                some (d.name ++ "/" ++ C ++ "-jit-bench.json")
              else none
            regression :=
              if d.files.contains (C ++ "-regression.json") then
                some (d.name ++ "/" ++ C ++ "-regression.json")
              else none
            jit_regression :=
              if d.files.contains (C ++ "-jit-regression.json") then
                some (d.name ++ "/" ++ C ++ "-jit-regression.json")
              else none
            cross_client :=
              if d.files.contains (C ++ "-cross-client.json") then
                some (d.name ++ "/" ++ C ++ "-cross-client.json")
              else none },
    ?_, rfl, rfl, rfl, rfl, rfl, rfl, rfl, ?_, ?_, ?_, ?_⟩
  · simp only [scan_data_dir]
    rw [List.filter_flatMap]
    have hSperm := List.perm_insertionSort
      (fun a b : DirEntry => strLe a.name b.name = true) entries
    have hnodupS := hSperm.symm.nodup (List.Nodup.of_map DirEntry.name hnames)
    rw [flatMap_single (hnodupS.filter _)
      (List.mem_filter.mpr ⟨hSperm.mem_iff.mpr hd, hdir⟩) ?_]
    · rw [scanDateDir]
      apply filterMap_filter_single d.name d.files C
      · exact ((List.perm_insertionSort _ _).symm.nodup (hfiles.filter _))
      · exact (List.perm_insertionSort _ _).mem_iff.mpr
          (List.mem_filter.mpr ⟨hmem, endsWithS_append C "-bench.json"⟩)
      · exact hjit
    · intro e he hne
      have hename : e.name ≠ d.name := fun heq =>
        hne (List.inj_on_of_nodup_map hnames
          (hSperm.mem_iff.mp (List.mem_filter.mp he).1) hd heq)
      apply List.filter_eq_nil_iff.mpr
      intro r hr hp
      rw [Bool.and_eq_true, beq_iff_eq, beq_iff_eq] at hp
      exact hename (scanDateDir_date hr ▸ hp.1)
  · rw [recordKeys_contains_jit_bench]
    cases hc : d.files.contains (C ++ "-jit-bench.json") <;> simp [hc]
  · rw [recordKeys_contains_regression]
    cases hc : d.files.contains (C ++ "-regression.json") <;> simp [hc]
  · rw [recordKeys_contains_jit_regression]
    cases hc : d.files.contains (C ++ "-jit-regression.json") <;> simp [hc]
  · rw [recordKeys_contains_cross_client]
    cases hc : d.files.contains (C ++ "-cross-client.json") <;> simp [hc]

/-- A concrete one-directory tree used to witness the primary-record
theorem. -/
def wEntry1 : DirEntry :=
  ⟨"2026-02-26", true, ["abc-bench.json", "abc-regression.json"]⟩

/-- Witness for C1 at a concrete directory tree. -/
theorem scan_primary_record_witness :
    (([wEntry1].map DirEntry.name).Nodup) ∧ wEntry1 ∈ [wEntry1] ∧
    wEntry1.isDir = true ∧ wEntry1.files.Nodup ∧
    ("abc" ++ "-bench.json") ∈ wEntry1.files ∧
    endsWithS ("abc" ++ "-bench.json") "-jit-bench.json" = false ∧
    ∃ rec,
      (scan_data_dir (some [wEntry1])).filter
          (fun r => r.date == wEntry1.name &&
            r.bench == wEntry1.name ++ "/" ++ ("abc" ++ "-bench.json")) = [rec] ∧
      rec.date = wEntry1.name ∧ rec.commit = "abc" ∧
      rec.bench = wEntry1.name ++ "/" ++ ("abc" ++ "-bench.json") ∧
      rec.jit_bench = (if wEntry1.files.contains ("abc" ++ "-jit-bench.json") then
        some (wEntry1.name ++ "/" ++ "abc" ++ "-jit-bench.json") else none) ∧
      rec.regression = (if wEntry1.files.contains ("abc" ++ "-regression.json") then
        some (wEntry1.name ++ "/" ++ "abc" ++ "-regression.json") else none) ∧
      rec.jit_regression = (if wEntry1.files.contains ("abc" ++ "-jit-regression.json") then
        some (wEntry1.name ++ "/" ++ "abc" ++ "-jit-regression.json") else none) ∧
      rec.cross_client = (if wEntry1.files.contains ("abc" ++ "-cross-client.json") then
        some (wEntry1.name ++ "/" ++ "abc" ++ "-cross-client.json") else none) ∧
      (recordKeys rec).contains "jit_bench" =
        wEntry1.files.contains ("abc" ++ "-jit-bench.json") ∧
      (recordKeys rec).contains "regression" =
        wEntry1.files.contains ("abc" ++ "-regression.json") ∧
      (recordKeys rec).contains "jit_regression" =
        wEntry1.files.contains ("abc" ++ "-jit-regression.json") ∧
      (recordKeys rec).contains "cross_client" =
        wEntry1.files.contains ("abc" ++ "-cross-client.json") :=
  ⟨by decide, by decide, by decide, by decide, by decide, by decide,
    scan_primary_record [wEntry1] wEntry1 "abc" (by decide) (by decide)
      (by decide) (by decide) (by decide) (by decide)⟩

lemma pairwise_scanDateDir (e : DirEntry) :
    (scanDateDir e).Pairwise (fun r1 r2 => r1.date = r2.date ∧
      strLe (r1.commit ++ "-bench.json") (r2.commit ++ "-bench.json") = true) := by
  rw [scanDateDir]
  apply List.pairwise_filterMap.mpr
  have hs := List.sorted_insertionSort (fun a b : String => strLe a b = true)
    (e.files.filter globMatchBench)
  refine List.Pairwise.imp_of_mem ?_ hs
  intro n n' hn hn' hle r hr r' hr'
  rw [Option.mem_def] at hr hr'
  have h1 := scanBenchFile_some hr
  have h2 := scanBenchFile_some hr'
  have hgn : globMatchBench n = true :=
    List.of_mem_filter ((List.perm_insertionSort _ _).mem_iff.mp hn)
  have hgn' : globMatchBench n' = true :=
    List.of_mem_filter ((List.perm_insertionSort _ _).mem_iff.mp hn')
  have hrc : r.commit ++ "-bench.json" = n := by
    rw [h1.2.2.1]; exact removesuffix_reconstruct hgn
  have hrc' : r'.commit ++ "-bench.json" = n' := by
    rw [h2.2.2.1]; exact removesuffix_reconstruct hgn'
  refine ⟨h1.2.1.trans h2.2.1.symm, ?_⟩
  rw [hrc, hrc']
  exact hle

/-- C2: `scan_data_dir` keeps only directory children of the root (every
record's date is the name of some directory entry, so non-directories are
never traversed), and — directories being processed in lexicographic name
order and each directory's `*-bench.json` files in lexicographic filename
order — the output records are ordered by (date directory name, primary
filename) ascending under plain string comparison. -/
theorem scan_ordered (entries : List DirEntry)
    (hnames : (entries.map DirEntry.name).Nodup) :
    (∀ r ∈ scan_data_dir (some entries),
      ∃ e ∈ entries, e.isDir = true ∧ r.date = e.name) ∧
    (scan_data_dir (some entries)).Pairwise (fun r1 r2 =>
      strLt r1.date r2.date = true ∨
        (r1.date = r2.date ∧
          strLe (r1.commit ++ "-bench.json") (r2.commit ++ "-bench.json") = true)) := by
  constructor
  · intro r hr
    obtain ⟨e, he, hdir, hmem⟩ := mem_scan hr
    exact ⟨e, he, hdir, scanDateDir_date hmem⟩
  · simp only [scan_data_dir]
    rw [List.flatMap_def]
    apply List.pairwise_flatten.mpr
    constructor
    · intro l' hl'
      obtain ⟨e, -, rfl⟩ := List.mem_map.mp hl'
      exact List.Pairwise.imp (fun h => Or.inr h) (pairwise_scanDateDir e)
    · apply List.pairwise_map.mpr
      have hSperm := List.perm_insertionSort
        (fun a b : DirEntry => strLe a.name b.name = true) entries
      have hsorted := List.sorted_insertionSort
        (fun a b : DirEntry => strLe a.name b.name = true) entries
      have hP2 := List.Pairwise.filter (fun e => e.isDir) hsorted
      have hnames2 :
          ((((List.insertionSort (fun a b : DirEntry => strLe a.name b.name = true)
            entries).filter (fun e => e.isDir)).map DirEntry.name)).Nodup :=
        ((List.filter_sublist _).map DirEntry.name).nodup
          ((hSperm.map DirEntry.name).symm.nodup hnames)
      have hne := List.pairwise_map.mp hnames2
      refine List.Pairwise.imp ?_ (hP2.and hne)
      intro e1 e2 h x hx y hy
      refine Or.inl ?_
      rw [scanDateDir_date hx, scanDateDir_date hy]
      exact strLe_ne_strLt h.1 h.2

/-- Witness for C2 at a concrete directory tree. -/
theorem scan_ordered_witness :
    (([(⟨"2026-02-25", true, ["b-bench.json"]⟩ : DirEntry),
       ⟨"2026-02-24", true, ["c-bench.json", "a-bench.json"]⟩].map
         DirEntry.name).Nodup) ∧
    ((∀ r ∈ scan_data_dir (some [(⟨"2026-02-25", true, ["b-bench.json"]⟩ : DirEntry),
        ⟨"2026-02-24", true, ["c-bench.json", "a-bench.json"]⟩]),
      ∃ e ∈ [(⟨"2026-02-25", true, ["b-bench.json"]⟩ : DirEntry),
        ⟨"2026-02-24", true, ["c-bench.json", "a-bench.json"]⟩],
          e.isDir = true ∧ r.date = e.name) ∧
    (scan_data_dir (some [(⟨"2026-02-25", true, ["b-bench.json"]⟩ : DirEntry),
        ⟨"2026-02-24", true, ["c-bench.json", "a-bench.json"]⟩])).Pairwise
      (fun r1 r2 => strLt r1.date r2.date = true ∨
        (r1.date = r2.date ∧
          strLe (r1.commit ++ "-bench.json") (r2.commit ++ "-bench.json") = true))) :=
  ⟨by decide,
    scan_ordered [⟨"2026-02-25", true, ["b-bench.json"]⟩,
      ⟨"2026-02-24", true, ["c-bench.json", "a-bench.json"]⟩] (by decide)⟩

lemma scanBenchFile_jit_none {D : String} {files : List String} {n : String}
    (h : endsWithS n "-jit-bench.json" = true) :
    scanBenchFile D files n = none := by
  rw [scanBenchFile, if_pos (by simp [h])]

/-- C3: a file whose name ends with the literal suffix `-jit-bench.json`
never produces a record: no output record's primary filename carries that
suffix, and a directory holding only such files (in particular a
`<C>-jit-bench.json` without its `<C>-bench.json`) contributes zero
records. -/
theorem scan_skip_jit :
    (∀ (root : Option (List DirEntry)) (r : RunRecord),
      r ∈ scan_data_dir root →
        endsWithS (r.commit ++ "-bench.json") "-jit-bench.json" = false) ∧
    (∀ (D : String) (files : List String),
      (∀ f ∈ files, endsWithS f "-jit-bench.json" = true) →
      scan_data_dir (some [⟨D, true, files⟩]) = []) := by
  constructor
  · intro root r hr
    cases root with
    | none => cases hr
    | some entries =>
      obtain ⟨e, -, -, hmem⟩ := mem_scan hr
      obtain ⟨n, -, hglob, hs⟩ := scanDateDir_mem hmem
      have h1 := scanBenchFile_some hs
      have hrc : r.commit ++ "-bench.json" = n := by
        rw [h1.2.2.1]; exact removesuffix_reconstruct hglob
      rw [hrc]
      exact h1.1
  · intro D files hall
    simp only [scan_data_dir, List.insertionSort, List.orderedInsert]
    have hdd : scanDateDir ⟨D, true, files⟩ = [] := by
      rw [scanDateDir]
      apply List.filterMap_eq_nil_iff.mpr
      intro n hn
      have hmem : n ∈ files.filter globMatchBench :=
        (List.perm_insertionSort _ _).mem_iff.mp hn
      exact scanBenchFile_jit_none (hall n (List.mem_filter.mp hmem).1)
    simp [hdd]

/-- Witness for C3 at a concrete lone companion file. -/
theorem scan_skip_jit_witness :
    (∀ f ∈ ["x-jit-bench.json"], endsWithS f "-jit-bench.json" = true) ∧
    scan_data_dir (some [⟨"2026-02-26", true, ["x-jit-bench.json"]⟩]) = [] :=
  ⟨by decide, scan_skip_jit.2 "2026-02-26" ["x-jit-bench.json"] (by decide)⟩

/-- C4: a nonexistent root, an empty root, and a root with no
`*-bench.json` primaries anywhere all yield the empty record list, with
no error. -/
theorem scan_empty_inputs :
    scan_data_dir none = [] ∧
    scan_data_dir (some []) = [] ∧
    ∀ entries : List DirEntry,
      (∀ e ∈ entries, e.isDir = true → ∀ f ∈ e.files, globMatchBench f = false) →
      scan_data_dir (some entries) = [] := by
  refine ⟨rfl, rfl, ?_⟩
  intro entries hno
  simp only [scan_data_dir]
  apply List.flatMap_eq_nil_iff.mpr
  intro e he
  have h1 := List.mem_filter.mp he
  have he2 : e ∈ entries := (List.perm_insertionSort _ _).mem_iff.mp h1.1
  have hfe : e.files.filter globMatchBench = [] :=
    List.filter_eq_nil_iff.mpr (fun f hf hg =>
      absurd hg (by rw [hno e he2 (by simpa using h1.2) f hf]; simp))
  rw [scanDateDir, hfe]
  rfl

/-- Witness for C4 at a concrete root with no matching structure. -/
theorem scan_empty_inputs_witness :
    (∀ e ∈ [(⟨"notes.txt", false, []⟩ : DirEntry),
        ⟨"2026-02-26", true, ["readme.txt"]⟩],
      e.isDir = true → ∀ f ∈ e.files, globMatchBench f = false) ∧
    scan_data_dir (some [(⟨"notes.txt", false, []⟩ : DirEntry),
      ⟨"2026-02-26", true, ["readme.txt"]⟩]) = [] :=
  ⟨by decide, scan_empty_inputs.2.2
    [⟨"notes.txt", false, []⟩, ⟨"2026-02-26", true, ["readme.txt"]⟩] (by decide)⟩

lemma contains_append_single {C x y : String} (h : x ≠ y) :
    ([C ++ y] : List String).contains (C ++ x) = false := by
  simp only [List.contains_cons, List.contains_nil, Bool.or_false]
  rw [beq_eq_false_iff_ne]
  exact fun e => h (append_cancel_left_str e)

/-- C8: the scanner is permissive about commit substrings: any filename
`C ++ "-bench.json"` (not a `-jit-bench.json` companion) produces a
record with commit exactly `C`, with no character-class restriction; in
particular the literal filename `-bench.json` yields an empty commit,
even though the declared `BENCH_PATTERN` regex (never applied by the
scan) rejects that path. -/
theorem scan_permissive_commit :
    (∀ D C : String, endsWithS (C ++ "-bench.json") "-jit-bench.json" = false →
      scan_data_dir (some [⟨D, true, [C ++ "-bench.json"]⟩]) =
        [{ date := D, commit := C, bench := D ++ "/" ++ (C ++ "-bench.json") }]) ∧
    scan_data_dir (some [⟨"2026-02-26", true, ["-bench.json"]⟩]) =
      [{ date := "2026-02-26", commit := "", bench := "2026-02-26/-bench.json" }] ∧
    BENCH_PATTERN_match "2026-02-26/-bench.json" = false := by
  refine ⟨?_, by decide, by decide⟩
  intro D C hjit
  simp only [scan_data_dir, List.insertionSort, List.orderedInsert]
  have hfil : ([C ++ "-bench.json"] : List String).filter globMatchBench =
      [C ++ "-bench.json"] := by
    simp [List.filter, globMatchBench, endsWithS_append]
  have hdd : scanDateDir ⟨D, true, [C ++ "-bench.json"]⟩ =
      [{ date := D, commit := C, bench := D ++ "/" ++ (C ++ "-bench.json") }] := by
    rw [scanDateDir]
    show (List.insertionSort _ (([C ++ "-bench.json"] : List String).filter
      globMatchBench)).filterMap _ = _
    rw [hfil]
    show (List.filterMap _ [C ++ "-bench.json"]) = _
    rw [List.filterMap_cons_some (scanBenchFile_eq_some hjit),
      List.filterMap_nil, removesuffix_append,
      contains_append_single (by decide : ("-jit-bench.json" : String) ≠ "-bench.json"),
      contains_append_single (by decide : ("-regression.json" : String) ≠ "-bench.json"),
      contains_append_single (by decide : ("-jit-regression.json" : String) ≠ "-bench.json"),
      contains_append_single (by decide : ("-cross-client.json" : String) ≠ "-bench.json")]
    rfl
  simp [hdd]

/-- Witness for C8 at a commit string outside the regex character class. -/
theorem scan_permissive_commit_witness :
    endsWithS ("zz!" ++ "-bench.json") "-jit-bench.json" = false ∧
    scan_data_dir (some [⟨"2026-02-26", true, ["zz!" ++ "-bench.json"]⟩]) =
      [{ date := "2026-02-26", commit := "zz!",
         bench := "2026-02-26" ++ "/" ++ ("zz!" ++ "-bench.json") }] :=
  ⟨by decide, scan_permissive_commit.1 "2026-02-26" "zz!" (by decide)⟩

/-- C9: every record's paths are reconstructible from its `date` and
`commit` alone: `bench` is `date/commit-bench.json`, and each present
companion field is `date/commit-<role>.json` for its role. -/
theorem scan_path_derivable (root : Option (List DirEntry)) (r : RunRecord)
    (h : r ∈ scan_data_dir root) :
    r.bench = r.date ++ "/" ++ r.commit ++ "-bench.json" ∧
    (∀ s, r.jit_bench = some s →
      s = r.date ++ "/" ++ r.commit ++ "-jit-bench.json") ∧
    (∀ s, r.regression = some s →
      s = r.date ++ "/" ++ r.commit ++ "-regression.json") ∧
    (∀ s, r.jit_regression = some s →
      s = r.date ++ "/" ++ r.commit ++ "-jit-regression.json") ∧
    (∀ s, r.cross_client = some s →
      s = r.date ++ "/" ++ r.commit ++ "-cross-client.json") := by
  cases root with
  | none => cases h
  | some entries =>
    obtain ⟨e, -, -, hmem⟩ := mem_scan h
    obtain ⟨n, -, hglob, hs⟩ := scanDateDir_mem hmem
    obtain rfl := scanBenchFile_explicit hs
    refine ⟨?_, ?_, ?_, ?_, ?_⟩
    · dsimp only
      rw [String.append_assoc (e.name ++ "/") (removesuffix n "-bench.json")
        "-bench.json", removesuffix_reconstruct hglob]
    · intro s hsome
      dsimp only at hsome ⊢
      by_cases hc : e.files.contains
          (removesuffix n "-bench.json" ++ "-jit-bench.json") = true
      · rw [if_pos hc] at hsome
        exact (Option.some_inj.mp hsome).symm
      · rw [if_neg hc] at hsome
        cases hsome
    · intro s hsome
      dsimp only at hsome ⊢
      by_cases hc : e.files.contains
          (removesuffix n "-bench.json" ++ "-regression.json") = true
      · rw [if_pos hc] at hsome
        exact (Option.some_inj.mp hsome).symm
      · rw [if_neg hc] at hsome
        cases hsome
    · intro s hsome
      dsimp only at hsome ⊢
      by_cases hc : e.files.contains
          (removesuffix n "-bench.json" ++ "-jit-regression.json") = true
      · rw [if_pos hc] at hsome
        exact (Option.some_inj.mp hsome).symm
      · rw [if_neg hc] at hsome
        cases hsome
    · intro s hsome
      dsimp only at hsome ⊢
      by_cases hc : e.files.contains
          (removesuffix n "-bench.json" ++ "-cross-client.json") = true
      · rw [if_pos hc] at hsome
        exact (Option.some_inj.mp hsome).symm
      · rw [if_neg hc] at hsome
        cases hsome

/-- The record the scanner produces for `wEntry1`'s primary file. -/
def wRec : RunRecord :=
  { date := "2026-02-26", commit := "abc", bench := "2026-02-26/abc-bench.json",
    regression := some "2026-02-26/abc-regression.json" }

/-- Witness for C9 at a concrete scanned record. -/
theorem scan_path_derivable_witness :
    wRec ∈ scan_data_dir (some [wEntry1]) ∧
    wRec.bench = wRec.date ++ "/" ++ wRec.commit ++ "-bench.json" ∧
    "2026-02-26/abc-regression.json" =
      wRec.date ++ "/" ++ wRec.commit ++ "-regression.json" :=
  ⟨by decide,
    (scan_path_derivable (some [wEntry1]) wRec (by decide)).1,
    (scan_path_derivable (some [wEntry1]) wRec (by decide)).2.2.1
      "2026-02-26/abc-regression.json" rfl⟩

/-- C5: on success `write_index` writes exactly the `json.dump` rendering
of `\x7b"runs": [...]\x7d` plus a trailing newline: the records appear in
the given order (the rendered array maps the input list), each record's
keys are `date`, `commit`, `bench` then the present optional keys in the
fixed order, the `runs` array length equals the input length, the content
ends in a newline, and the document is multi-line with the 2-space-indented
`"runs"` field on its own line. -/
theorem write_index_output (runs : List RunRecord) (p : String) (env : IOEnv)
    (fs : FileStore) (hmk : env.mkdirErr (dirnameOrDot p) = none)
    (hop : env.openErr p = none) :
    write_index runs p env fs = .ok (fsWrite fs p (serializeIndex runs)) ∧
    fsGet (fsWrite fs p (serializeIndex runs)) p = some (serializeIndex runs) ∧
    serializeIndex runs = dumpIndex (runs.map recordFields) ++ "\n" ∧
    (runs.map recordFields).length = runs.length ∧
    (∀ r ∈ runs, recordKeys r = ["date", "commit", "bench"] ++
      (if r.jit_bench.isSome then ["jit_bench"] else []) ++
      (if r.regression.isSome then ["regression"] else []) ++
      (if r.jit_regression.isSome then ["jit_regression"] else []) ++
      (if r.cross_client.isSome then ["cross_client"] else [])) ∧
    endsWithS (serializeIndex runs) "\n" = true ∧
    ∃ rest, serializeIndex runs = "\x7b\n  \"runs\": " ++ rest := by
  refine ⟨?_, fsGet_fsWrite fs p _, rfl, by simp,
    fun r _ => recordKeys_eq r, endsWithS_append _ "\n",
    ⟨renderRuns (runs.map recordFields) ++ "\n\x7d" ++ "\n", ?_⟩⟩
  · rw [write_index, hmk, hop]
  · simp [serializeIndex, dumpIndex, String.append_assoc]

/-- A concrete one-record run list used by the writer witnesses. -/
def wRuns : List RunRecord :=
  [{ date := "2026-02-26", commit := "abc", bench := "2026-02-26/abc-bench.json" }]

/-- An environment in which every operating-system call succeeds. -/
def wEnvOk : IOEnv := ⟨fun _ => none, fun _ => none⟩

/-- Witness for C5 at a concrete run list and output path. -/
theorem write_index_output_witness :
    wEnvOk.mkdirErr (dirnameOrDot "data/index.json") = none ∧
    wEnvOk.openErr "data/index.json" = none ∧
    (write_index wRuns "data/index.json" wEnvOk [] =
      .ok (fsWrite [] "data/index.json" (serializeIndex wRuns)) ∧
    fsGet (fsWrite [] "data/index.json" (serializeIndex wRuns)) "data/index.json" =
      some (serializeIndex wRuns) ∧
    serializeIndex wRuns = dumpIndex (wRuns.map recordFields) ++ "\n" ∧
    (wRuns.map recordFields).length = wRuns.length ∧
    (∀ r ∈ wRuns, recordKeys r = ["date", "commit", "bench"] ++
      (if r.jit_bench.isSome then ["jit_bench"] else []) ++
      (if r.regression.isSome then ["regression"] else []) ++
      (if r.jit_regression.isSome then ["jit_regression"] else []) ++
      (if r.cross_client.isSome then ["cross_client"] else [])) ∧
    endsWithS (serializeIndex wRuns) "\n" = true ∧
    ∃ rest, serializeIndex wRuns = "\x7b\n  \"runs\": " ++ rest) :=
  ⟨rfl, rfl, write_index_output wRuns "data/index.json" wEnvOk [] rfl rfl⟩

/-- C6: `write_index` is deterministic: any two successful invocations on
the same run list leave byte-identical content at the output path —
whatever the environment, the prior store contents, and in particular when
the second write overwrites the first one's output file. -/
theorem write_index_deterministic (runs : List RunRecord) (p : String)
    (env1 env2 : IOEnv) (fs1 fs2 out1 out2 : FileStore)
    (h1 : write_index runs p env1 fs1 = .ok out1)
    (h2 : write_index runs p env2 fs2 = .ok out2) :
    fsGet out1 p = some (serializeIndex runs) ∧ fsGet out1 p = fsGet out2 p := by
  obtain rfl := write_ok_inv h1
  obtain rfl := write_ok_inv h2
  rw [fsGet_fsWrite, fsGet_fsWrite]
  exact ⟨rfl, rfl⟩

/-- Witness for C6: writing twice in a row to the same path. -/
theorem write_index_deterministic_witness :
    write_index wRuns "index.json" wEnvOk [] =
      .ok (fsWrite [] "index.json" (serializeIndex wRuns)) ∧
    write_index wRuns "index.json" wEnvOk
        (fsWrite [] "index.json" (serializeIndex wRuns)) =
      .ok (fsWrite (fsWrite [] "index.json" (serializeIndex wRuns))
        "index.json" (serializeIndex wRuns)) ∧
    (fsGet (fsWrite [] "index.json" (serializeIndex wRuns)) "index.json" =
      some (serializeIndex wRuns) ∧
    fsGet (fsWrite [] "index.json" (serializeIndex wRuns)) "index.json" =
      fsGet (fsWrite (fsWrite [] "index.json" (serializeIndex wRuns))
        "index.json" (serializeIndex wRuns)) "index.json") :=
  ⟨rfl, rfl,
    write_index_deterministic wRuns "index.json" wEnvOk wEnvOk []
      (fsWrite [] "index.json" (serializeIndex wRuns)) _ _ rfl rfl⟩

/-- C7: when directory creation or opening the output file fails with an
`OSError`, `write_index` fails fatally — it returns the distinguishable
`SystemExit` error instead of a store — and that error's message contains
the offending path and the underlying cause, the cause being attached
verbatim. -/
theorem write_index_failure (runs : List RunRecord) (p : String) (env : IOEnv)
    (fs : FileStore) (e : String)
    (h : env.mkdirErr (dirnameOrDot p) = some e ∨
      (env.mkdirErr (dirnameOrDot p) = none ∧ env.openErr p = some e)) :
    write_index runs p env fs =
      .error ⟨"Error writing " ++ p ++ ": " ++ e, e⟩ ∧
    (∃ pre post, "Error writing " ++ p ++ ": " ++ e = pre ++ p ++ post) ∧
    (∃ pre2, "Error writing " ++ p ++ ": " ++ e = pre2 ++ e) := by
  refine ⟨?_, ⟨"Error writing ", ": " ++ e, ?_⟩,
    ⟨"Error writing " ++ p ++ ": ", rfl⟩⟩
  · rcases h with h | h
    · rw [write_index, h]
    · rw [write_index, h.1, h.2]
  · rw [String.append_assoc ("Error writing " ++ p)]

/-- An environment in which creating any directory fails. -/
def wEnvFail : IOEnv := ⟨fun _ => some "Permission denied", fun _ => none⟩

/-- Witness for C7 at a concrete failing environment. -/
theorem write_index_failure_witness :
    (wEnvFail.mkdirErr (dirnameOrDot "data/index.json") = some "Permission denied" ∨
      (wEnvFail.mkdirErr (dirnameOrDot "data/index.json") = none ∧
        wEnvFail.openErr "data/index.json" = some "Permission denied")) ∧
    (write_index wRuns "data/index.json" wEnvFail [] =
      .error ⟨"Error writing " ++ "data/index.json" ++ ": " ++ "Permission denied",
        "Permission denied"⟩ ∧
    (∃ pre post, "Error writing " ++ "data/index.json" ++ ": " ++ "Permission denied" =
      pre ++ "data/index.json" ++ post) ∧
    (∃ pre2, "Error writing " ++ "data/index.json" ++ ": " ++ "Permission denied" =
      pre2 ++ "Permission denied")) :=
  ⟨Or.inl rfl,
    write_index_failure wRuns "data/index.json" wEnvFail [] "Permission denied"
      (Or.inl rfl)⟩

/-- C10: an output path with no directory component makes the
directory-creation step target `.` (the empty `dirname` is replaced by the
current directory), so with the current directory present the write
succeeds into it rather than failing on directory creation. -/
theorem write_index_bare_filename (runs : List RunRecord) (p : String)
    (env : IOEnv) (fs : FileStore) (hslash : p.data.contains '/' = false) :
    dirnameOrDot p = "." ∧
    (env.mkdirErr "." = none → env.openErr p = none →
      write_index runs p env fs = .ok (fsWrite fs p (serializeIndex runs))) := by
  have hd : dirname p = "" := by
    rw [dirname]
    have hmem : ∀ c ∈ p.data.reverse, (fun c => !(c == '/')) c = true := by
      intro c hc
      have hin : c ∈ p.data := List.mem_reverse.mp hc
      have hne : c ≠ '/' := by
        intro he
        have : p.data.contains '/' = true :=
          List.contains_iff_exists_mem_beq.mpr ⟨c, hin, by simp [he]⟩
        rw [hslash] at this
        cases this
      simp [hne]
    rw [List.takeWhile_eq_self_iff.mpr hmem]
    simp
  have hdot : dirnameOrDot p = "." := by simp [dirnameOrDot, hd]
  refine ⟨hdot, fun hmk hop => ?_⟩
  rw [write_index, hdot, hmk, hop]

/-- Witness for C10 at a concrete bare filename. -/
theorem write_index_bare_filename_witness :
    ("index.json" : String).data.contains '/' = false ∧
    dirnameOrDot "index.json" = "." ∧
    write_index wRuns "index.json" wEnvOk [] =
      .ok (fsWrite [] "index.json" (serializeIndex wRuns)) :=
  ⟨by decide,
    (write_index_bare_filename wRuns "index.json" wEnvOk [] (by decide)).1,
    (write_index_bare_filename wRuns "index.json" wEnvOk [] (by decide)).2 rfl rfl⟩

end RebuildIndex
